import Mathlib

/-!
Verification of the concurrency coordination core of the go-learn repository
(`src/cmd/channels/channels.go`, `src/cmd/goroutines/goroutines.go`).

The Go sources demonstrate buffered/unbuffered channels, `select` with a
signal-only done channel, `sync.WaitGroup`, and a mutex-guarded shared
counter.  We give a shallow embedding of the semantics of these constructs
as they are used by the source:

* `ChanState`/`ChanStep` model a Go channel with a capacity, a FIFO buffer
  and a closed flag (the channels created by `make(chan int, 50)`,
  `make(chan logEntry, 50)`, `make(chan struct{})` in the source);
* `receiveNow` models the comma-ok receive `i, ok := <-ch` of
  channels.go lines 273-294;
* the logger goroutine of channels.go lines 32-49 becomes the
  `MuxState`/`MuxStep` transition system;
* the WaitGroup usage of goroutines.go becomes the `TGRun` system, and a
  bare `TaskGroup` counter models one `sync.WaitGroup`;
* the mutex-guarded counter of goroutines.go (`incrementMutex`) becomes
  the `IncState`/`IncStep` system.

Concurrency is modelled by interleaving: a step relation on a global state,
with traces quantifying over every scheduling.
-/

namespace GoLearn

/-! ## Channels

A Go channel as used by the source: `make(chan T, cap)` yields an empty
open channel; a buffered send appends when the buffer has room and the
channel is open; a receive pops the head; `close(ch)` sets the closed flag
(closing twice panics, so the step requires the channel open). -/

/-- The state of one Go channel of element type `α`:
`make(chan α, capacity)` plus the FIFO buffer contents and the closed flag. -/
structure ChanState (α : Type) where
  capacity : Nat
  buffer : List α
  closed : Bool
deriving Repr, DecidableEq

/-- `make(chan α, cap)`: empty buffer, not closed. -/
def ChanState.make (α : Type) (cap : Nat) : ChanState α :=
  ⟨cap, [], false⟩

/-- Labels of channel transitions: a completed buffered send, a completed
receive of a value, a receive observing the closed-and-drained channel
(comma-ok returns `ok = false`), and `close(ch)`. -/
inductive ChanLabel (α : Type) where
  | send (x : α)
  | recv (x : α)
  | recvClosed
  | close
deriving Repr, DecidableEq

/-- One atomic channel transition, following Go channel semantics as used
by the source (channels.go): a buffered send completes only on an open
channel with room in the buffer; a receive pops the FIFO head; a
closed-and-drained receive returns without a value; `close` is performed
once, on an open channel. -/
inductive ChanStep {α : Type} : ChanState α → ChanLabel α → ChanState α → Prop where
  | send (s : ChanState α) (x : α) :
      s.closed = false →
      s.buffer.length < s.capacity →
      ChanStep s (.send x) ⟨s.capacity, s.buffer ++ [x], s.closed⟩
  | recv (s : ChanState α) (x : α) (rest : List α) :
      s.buffer = x :: rest →
      ChanStep s (.recv x) ⟨s.capacity, rest, s.closed⟩
  | recvClosed (s : ChanState α) :
      s.closed = true →
      s.buffer = [] →
      ChanStep s .recvClosed s
  | close (s : ChanState α) :
      s.closed = false →
      ChanStep s .close ⟨s.capacity, s.buffer, true⟩

/-- A scheduling of channel operations: a sequence of atomic transitions. -/
inductive ChanTrace {α : Type} : ChanState α → List (ChanLabel α) → ChanState α → Prop where
  | nil (s : ChanState α) : ChanTrace s [] s
  | cons {s s' s'' : ChanState α} {l : ChanLabel α} {ls : List (ChanLabel α)} :
      ChanStep s l s' → ChanTrace s' ls s'' → ChanTrace s (l :: ls) s''

/-- The values sent over the course of a trace, in order. -/
def sentOf {α : Type} : List (ChanLabel α) → List α
  | [] => []
  | .send x :: ls => x :: sentOf ls
  | .recv _ :: ls => sentOf ls
  | .recvClosed :: ls => sentOf ls
  | .close :: ls => sentOf ls

/-- The values received over the course of a trace, in order. -/
def recvOf {α : Type} : List (ChanLabel α) → List α
  | [] => []
  | .send _ :: ls => recvOf ls
  | .recv x :: ls => x :: recvOf ls
  | .recvClosed :: ls => recvOf ls
  | .close :: ls => recvOf ls

/-- The comma-ok receive `i, ok := <-ch` of channels.go lines 273-294,
as a function of the channel state.  `zero` is Go's zero value for the
element type.  `none` means the receive blocks (open channel, empty
buffer); otherwise it returns the value, the ok boolean and the channel
state after the receive. -/
def receiveNow {α : Type} (s : ChanState α) (zero : α) : Option (α × Bool × ChanState α) :=
  match s.buffer with
  | x :: rest => some (x, true, ⟨s.capacity, rest, s.closed⟩)
  | [] => if s.closed then some (zero, false, s) else none

/-- Repeated comma-ok receives (the explicit loop of channels.go
lines 276-287): perform up to `n` receives, stopping when a receive
blocks; returns the list of `(value, ok)` results and the final state. -/
def receives {α : Type} : Nat → ChanState α → α → List (α × Bool) × ChanState α
  | 0, s, _ => ([], s)
  | n + 1, s, zero =>
    match receiveNow s zero with
    | none => ([], s)
    | some (a, b, s') =>
      let r := receives n s' zero
      ((a, b) :: r.1, r.2)

/-- Modelled from the spec: the result of one `BoundedChannel.send` call.
The spec's `BoundedChannel` generalizes the source's Go channels but, per
spec section 7, returns `ChannelClosedError` from `send` as an explicit
result value instead of Go's run-time panic (the panic is shown, commented
out, at channels.go lines 256-271).  No implementation of this generalized
component exists in the repository, so it is modelled from the spec's
words. -/
inductive SendResult (α : Type) where
  | sent (s : ChanState α)
  | blocked
  | channelClosedError
deriving Repr, DecidableEq

/-- Modelled from the spec: `BoundedChannel.send(item)` — "blocks until
buffer has room ...; fails with `ChannelClosedError` if the channel is
closed at time of call", the error "returned as explicit result values
(not thrown)".  The closed check precedes the room check, so a blocked
sender that observes the channel close fails the same way. -/
def boundedSend {α : Type} (s : ChanState α) (x : α) : SendResult α :=
  if s.closed then .channelClosedError
  else if s.buffer.length < s.capacity then .sent ⟨s.capacity, s.buffer ++ [x], s.closed⟩
  else .blocked

/-! ## Log entries and the formatted output line

channels.go lines 11-18: `logEntry{time, severity, message}` and
`const logInfo = "INFO"`.  Timestamps are modelled by their calendar
fields; `goTimeFormat` models Go's `time.Format` for the reference-layout
tokens the source layout `"2006-01-02T15:04:05"` uses. -/

/-- A calendar timestamp, the fields `time.Time.Format` renders for the
layout used by the source. -/
structure DateTime where
  year : Nat
  month : Nat
  day : Nat
  hour : Nat
  minute : Nat
  second : Nat
deriving Repr, DecidableEq

/-- Two-digit zero-padded decimal, as Go's `01`/`02`/`15`/`04`/`05`
layout tokens render. -/
def pad2 (n : Nat) : String :=
  if n < 10 then "0" ++ toString n else toString n

/-- Four-digit zero-padded decimal, as Go's `2006` layout token renders. -/
def pad4 (n : Nat) : String :=
  if n < 10 then "000" ++ toString n
  else if n < 100 then "00" ++ toString n
  else if n < 1000 then "0" ++ toString n
  else toString n

/-- Interpreter for Go time layouts over the reference-layout tokens
appearing in the source's layout string `"2006-01-02T15:04:05"`
(channels.go line 44): `2006` = year, `01` = month, `02` = day,
`15` = 24h hour, `04` = minute, `05` = second; any other character is
copied verbatim. -/
def goLayoutChars (t : DateTime) : List Char → String
  | '2' :: '0' :: '0' :: '6' :: rest => pad4 t.year ++ goLayoutChars t rest
  | '0' :: '1' :: rest => pad2 t.month ++ goLayoutChars t rest
  | '0' :: '2' :: rest => pad2 t.day ++ goLayoutChars t rest
  | '1' :: '5' :: rest => pad2 t.hour ++ goLayoutChars t rest
  | '0' :: '4' :: rest => pad2 t.minute ++ goLayoutChars t rest
  | '0' :: '5' :: rest => pad2 t.second ++ goLayoutChars t rest
  | c :: rest => String.singleton c ++ goLayoutChars t rest
  | [] => ""

/-- Go's `t.Format(layout)` for the layouts this source uses. -/
def goTimeFormat (t : DateTime) (layout : String) : String :=
  goLayoutChars t layout.toList

/-- channels.go lines 12-16: the `logEntry` struct. -/
structure LogEntry where
  time : DateTime
  severity : String
  message : String
deriving Repr, DecidableEq

/-- channels.go line 18: `const logInfo = "INFO"`. -/
def logInfo : String := "INFO"

/-- channels.go line 44: the line the logger prints for one entry,
`fmt.Printf("%v - [%v] %v\n", entry.time.Format("2006-01-02T15:04:05"),
entry.severity, entry.message)`, without the trailing newline: the `%v`
verb renders a string argument as itself. -/
def emittedLine (e : LogEntry) : String :=
  goTimeFormat e.time "2006-01-02T15:04:05" ++ " - [" ++ e.severity ++ "] " ++ e.message

/-- Modelled from the spec's words (section 6): the ISO-8601 rendering
`YYYY-MM-DDTHH:MM:SS` of a timestamp. -/
def iso8601 (t : DateTime) : String :=
  pad4 t.year ++ "-" ++ pad2 t.month ++ "-" ++ pad2 t.day ++ "T" ++
    pad2 t.hour ++ ":" ++ pad2 t.minute ++ ":" ++ pad2 t.second

/-- Modelled from the spec's words (section 6): the output template
`<ISO-8601 timestamp> - [<SEVERITY>] <message>`. -/
def specLine (e : LogEntry) : String :=
  iso8601 e.time ++ " - [" ++ e.severity ++ "] " ++ e.message

/-! ## The event multiplexer (the logger goroutine)

channels.go lines 32-49: the logger loop `select`s between the message
channel `logCh` and the signal-only channel `doneCh`; a message is
formatted and emitted, a done signal breaks the loop.  The spec
(section 4.4) describes it as a state machine `{Idle, Running, Stopped}`.
Producers may keep sending into the buffered message channel at any time;
such messages are buffered but never emitted after the stop. -/

/-- The control state of the event multiplexer (spec section 4.4):
`idle` before `go logger()`, `running` inside the select loop, `stopped`
after the `break loggerloop` triggered by the done channel. -/
inductive MuxPhase where
  | idle
  | running
  | stopped
deriving Repr, DecidableEq

/-- The multiplexer together with its message channel (`logCh`,
channels.go line 21: `make(chan logEntry, 50)`). -/
structure MuxState where
  phase : MuxPhase
  msgCh : ChanState LogEntry
deriving Repr, DecidableEq

/-- Initial state: logger not yet started, fresh buffered message channel. -/
def MuxState.init : MuxState :=
  ⟨.idle, ChanState.make LogEntry 50⟩

/-- Labels of multiplexer-system transitions: starting the goroutine, a
producer sending an entry into the message channel, the logger receiving
and emitting an entry, and the cancellation signal arriving. -/
inductive MuxLabel where
  | start
  | produce (e : LogEntry)
  | emit (e : LogEntry)
  | cancel
deriving Repr, DecidableEq

/-- One transition of the multiplexer system (channels.go lines 32-49,
319-333): `go logger()` starts the loop; producers send into the buffered
message channel regardless of the logger's phase; the running logger may
receive a buffered entry and emit its formatted line; the done signal
moves the running logger to `stopped`, where it performs no further
steps. -/
inductive MuxStep : MuxState → MuxLabel → MuxState → Prop where
  | start (m : MuxState) :
      m.phase = .idle →
      MuxStep m .start ⟨.running, m.msgCh⟩
  | produce (m : MuxState) (e : LogEntry) (c' : ChanState LogEntry) :
      ChanStep m.msgCh (.send e) c' →
      MuxStep m (.produce e) ⟨m.phase, c'⟩
  | emit (m : MuxState) (e : LogEntry) (c' : ChanState LogEntry) :
      m.phase = .running →
      ChanStep m.msgCh (.recv e) c' →
      MuxStep m (.emit e) ⟨.running, c'⟩
  | cancel (m : MuxState) :
      m.phase = .running →
      MuxStep m .cancel ⟨.stopped, m.msgCh⟩

/-- A scheduling of the multiplexer system. -/
inductive MuxTrace : MuxState → List MuxLabel → MuxState → Prop where
  | nil (m : MuxState) : MuxTrace m [] m
  | cons {m m' m'' : MuxState} {l : MuxLabel} {ls : List MuxLabel} :
      MuxStep m l m' → MuxTrace m' ls m'' → MuxTrace m (l :: ls) m''

/-! ## The cancellation rendezvous

channels.go line 22: `var doneCh = make(chan struct{})` — capacity 0.
A send on a zero-capacity Go channel completes only jointly with a
receive; `SigStep.rendezvous` is that joint atomic transition for the
coordinator's `doneCh <- struct{}{}` (line 333) and the logger's
`case <-doneCh: break loggerloop` (lines 45-46). -/

/-- The capacity of `doneCh` (channels.go line 22): `make(chan struct{})`
with no capacity argument, hence 0. -/
def doneChCapacity : Nat := 0

/-- The coordinator's position around the cancellation send
(channels.go line 333). -/
inductive MainPhase where
  | beforeSignal
  | afterSignal
deriving Repr, DecidableEq

/-- Joint state of the coordinator (main) and the logger goroutine for
the shutdown handshake. -/
structure SigState where
  logger : MuxPhase
  mainAt : MainPhase
deriving Repr, DecidableEq

/-- State at channels.go line 330: logger running, main about to signal. -/
def SigState.init : SigState :=
  ⟨.running, .beforeSignal⟩

/-- Transitions of the shutdown handshake.  Because `doneCh` has
capacity 0 there is no buffered send: the only way main's send completes
is the rendezvous, which in the same atomic step makes the logger take
its `<-doneCh` select branch and stop. -/
inductive SigStep : SigState → SigState → Prop where
  | rendezvous (s : SigState) :
      s.mainAt = .beforeSignal →
      s.logger = .running →
      SigStep s ⟨.stopped, .afterSignal⟩

/-- Reachability of the shutdown handshake system. -/
def SigReach : SigState → SigState → Prop :=
  Relation.ReflTransGen SigStep

/-- channels.go lines 320-324: the first log message sent by main. -/
def entryStart : LogEntry :=
  ⟨⟨2024, 1, 2, 3, 4, 5⟩, logInfo, "Starting application"⟩

/-- channels.go lines 325-329: the second log message sent by main. -/
def entryFinish : LogEntry :=
  ⟨⟨2024, 1, 2, 3, 4, 6⟩, logInfo, "Finishing application"⟩

/-! ## TaskGroup (sync.WaitGroup)

goroutines.go line 10 / channels.go line 9: `var wg = sync.WaitGroup{}`.
The spec (section 4.2) calls the generalized component `TaskGroup`:
`add(n)` raises the expected count, each task's `done()` lowers it by one,
`wait()` blocks until it is zero.  `TaskGroup` models the bare counter;
`TGRun` models one batch — `wg.Add(n)`, `n` spawned tasks each doing work
then `wg.Done()`, the coordinator blocked in `wg.Wait()` — under every
interleaving. -/

/-- The state of one `sync.WaitGroup` / spec `TaskGroup`: the expected
count.  A fresh `sync.WaitGroup{}` starts at zero. -/
structure TaskGroup where
  expected : Nat
deriving Repr, DecidableEq

/-- `var wg = sync.WaitGroup{}`: counter zero. -/
def TaskGroup.fresh : TaskGroup := ⟨0⟩

/-- TaskGroup operations: `add(k)`, one task's `done()`, and the return
of a blocked `wait()`. -/
inductive TGOp where
  | add (k : Nat)
  | done
  | waitReturn
deriving Repr, DecidableEq

/-- Semantics of the TaskGroup operations: `add(k)` raises the count,
`done` lowers a positive count by one (driving it negative is a run-time
panic, so no step), `waitReturn` fires only at count zero and leaves the
state unchanged. -/
inductive TGStep : TaskGroup → TGOp → TaskGroup → Prop where
  | add (g : TaskGroup) (k : Nat) :
      TGStep g (.add k) ⟨g.expected + k⟩
  | done (g : TaskGroup) (e : Nat) :
      g.expected = e + 1 →
      TGStep g .done ⟨e⟩
  | waitReturn (g : TaskGroup) :
      g.expected = 0 →
      TGStep g .waitReturn g

/-- One batch of `n` tasks run under a TaskGroup (goroutines.go
lines 88-93, 113-120): the group counter, which tasks have performed
their work, which have signalled `done()`, and whether the coordinator's
`wait()` has returned. -/
structure TGRun (n : Nat) where
  expected : Nat
  worked : Fin n → Bool
  signaled : Fin n → Bool
  waitReturned : Bool

/-- Batch state just after `add(n)` and the spawns: count `n`, no task
has worked or signalled, the coordinator is blocked in `wait()`. -/
def TGRun.start (n : Nat) : TGRun n :=
  ⟨n, fun _ => false, fun _ => false, false⟩

/-- Interleaved execution of one batch: a task performs its work; a task
that has worked signals `done()`, decrementing the positive count; the
coordinator's `wait()` returns once the count is zero. -/
inductive TGRunStep {n : Nat} : TGRun n → TGRun n → Prop where
  | work (s : TGRun n) (i : Fin n) :
      s.worked i = false →
      TGRunStep s ⟨s.expected, Function.update s.worked i true, s.signaled, s.waitReturned⟩
  | signal (s : TGRun n) (i : Fin n) (e : Nat) :
      s.worked i = true →
      s.signaled i = false →
      s.expected = e + 1 →
      TGRunStep s ⟨e, s.worked, Function.update s.signaled i true, s.waitReturned⟩
  | waitReturn (s : TGRun n) :
      s.expected = 0 →
      s.waitReturned = false →
      TGRunStep s ⟨s.expected, s.worked, s.signaled, true⟩

/-- Reachability for batch executions: every scheduling of the tasks and
the coordinator. -/
def TGReach {n : Nat} : TGRun n → TGRun n → Prop :=
  Relation.ReflTransGen TGRunStep

/-! ## The mutex-guarded shared counter

goroutines.go lines 184-188: `incrementMutex` mutates the shared
`counter` only while holding the mutex `m` (the lock is taken before the
goroutine is spawned, line 117, and released by the goroutine after the
increment).  Each increment is read-modify-write at the instruction
level; the guard makes the three fine-grained steps atomic with respect
to the other tasks. -/

/-- The program counter of one incrementing task: not yet started, lock
acquired, shared counter read into the local `v`, incremented value
written back, finished (lock released and `wg.Done()` run). -/
inductive IncPC where
  | idle
  | locked
  | readv (v : Nat)
  | wrote
  | finished
deriving Repr, DecidableEq

/-- Global state of `n` incrementing tasks sharing one counter and one
mutex: the counter value, the lock holder (if any), and each task's
program counter. -/
structure IncState (n : Nat) where
  counter : Nat
  lock : Option (Fin n)
  pc : Fin n → IncPC

/-- Initial state: `counter = 0` (goroutines.go line 112), lock free,
no task started. -/
def IncState.start (n : Nat) : IncState n :=
  ⟨0, none, fun _ => .idle⟩

/-- `SharedCounter.read()`: the guarded read returns the counter value
(the guard does not change it). -/
def IncState.read {n : Nat} (s : IncState n) : Nat :=
  s.counter

/-- Interleaved fine-grained execution of the `n` increments, each under
the mutex: acquire the free lock; read the shared counter into a local;
write back the local plus one; release the lock and finish.  Only the
lock holder may read, write or release. -/
inductive IncStep {n : Nat} : IncState n → IncState n → Prop where
  | acquire (s : IncState n) (i : Fin n) :
      s.lock = none →
      s.pc i = .idle →
      IncStep s ⟨s.counter, some i, Function.update s.pc i .locked⟩
  | readStep (s : IncState n) (i : Fin n) :
      s.lock = some i →
      s.pc i = .locked →
      IncStep s ⟨s.counter, s.lock, Function.update s.pc i (.readv s.counter)⟩
  | writeStep (s : IncState n) (i : Fin n) (v : Nat) :
      s.lock = some i →
      s.pc i = .readv v →
      IncStep s ⟨v + 1, s.lock, Function.update s.pc i .wrote⟩
  | release (s : IncState n) (i : Fin n) :
      s.lock = some i →
      s.pc i = .wrote →
      IncStep s ⟨s.counter, none, Function.update s.pc i .finished⟩

/-- Reachability: every scheduling of the `n` increments. -/
def IncReach {n : Nat} : IncState n → IncState n → Prop :=
  Relation.ReflTransGen IncStep

/-! ## Invariants used in the proofs -/

/-- The set of batch tasks whose `done()` has executed. -/
def signaledSet {n : Nat} (s : TGRun n) : Finset (Fin n) :=
  Finset.univ.filter (fun i => s.signaled i = true)

/-- Invariant of a batch run: the expected count plus the number of
`done()` calls is `n`; a task signals only after its work; and once
`wait()` has returned the count is zero. -/
def TGInv {n : Nat} (s : TGRun n) : Prop :=
  s.expected + (signaledSet s).card = n ∧
  (∀ i, s.signaled i = true → s.worked i = true) ∧
  (s.waitReturned = true → s.expected = 0)

/-- The set of incrementing tasks whose write to the shared counter has
landed. -/
def doneSet {n : Nat} (s : IncState n) : Finset (Fin n) :=
  Finset.univ.filter (fun i => s.pc i = IncPC.wrote ∨ s.pc i = IncPC.finished)

/-- A program counter that is inside the critical section (holds the
guard). -/
def holdsGuard (p : IncPC) : Prop :=
  p = IncPC.locked ∨ (∃ v, p = IncPC.readv v) ∨ p = IncPC.wrote

/-- Invariant of the mutex-guarded counter: the counter equals the
number of landed writes; a task that has read holds a snapshot equal to
the current counter; and every task inside the critical section is the
lock holder. -/
def IncInv {n : Nat} (s : IncState n) : Prop :=
  s.counter = (doneSet s).card ∧
  (∀ i v, s.pc i = IncPC.readv v → v = s.counter) ∧
  (∀ i, holdsGuard (s.pc i) → s.lock = some i)

/-! ## Channel lemmas -/

/-- A channel step never changes the capacity and keeps the buffer within
capacity. -/
theorem chanStep_capacity_buffer {α : Type} {s s' : ChanState α} {l : ChanLabel α}
    (h : ChanStep s l s') :
    s'.capacity = s.capacity ∧ (s.buffer.length ≤ s.capacity → s'.buffer.length ≤ s'.capacity) := by
  cases h with
  | send x hc hl =>
      refine ⟨rfl, fun _ => ?_⟩
      simpa using hl
  | recv x rest hb =>
      refine ⟨rfl, fun hle => ?_⟩
      rw [hb, List.length_cons] at hle
      show rest.length ≤ s.capacity
      omega
  | recvClosed hc hb => exact ⟨rfl, fun hle => hle⟩
  | close hc => exact ⟨rfl, fun hle => hle⟩

/-- Along a trace, the capacity is constant and a buffer within capacity
stays within capacity. -/
theorem chanTrace_capacity_buffer {α : Type} {s s' : ChanState α} {tr : List (ChanLabel α)}
    (h : ChanTrace s tr s') :
    s'.capacity = s.capacity ∧ (s.buffer.length ≤ s.capacity → s'.buffer.length ≤ s'.capacity) := by
  induction h with
  | nil s => exact ⟨rfl, fun hle => hle⟩
  | cons hstep _ ih =>
      obtain ⟨hc1, hb1⟩ := chanStep_capacity_buffer hstep
      exact ⟨ih.1.trans hc1, fun hle => ih.2 (hc1 ▸ hb1 hle)⟩

/-- Conservation along a trace: the initial buffer followed by the values
sent equals the values received followed by the final buffer. -/
theorem chanTrace_sent_recv {α : Type} {s s' : ChanState α} {tr : List (ChanLabel α)}
    (h : ChanTrace s tr s') :
    s.buffer ++ sentOf tr = recvOf tr ++ s'.buffer := by
  induction h with
  | nil s => simp [sentOf, recvOf]
  | cons hstep htr ih =>
      cases hstep with
      | send x hc hl =>
          simp only [sentOf, recvOf]
          rw [List.append_cons]
          exact ih
      | recv x rest hb =>
          simp only [sentOf, recvOf, hb, List.cons_append]
          exact congrArg (List.cons x) ih
      | recvClosed hc hb =>
          simpa [sentOf, recvOf] using ih
      | close hc =>
          simpa [sentOf, recvOf] using ih

/-- Draining a closed channel: the buffered items come out first, each
with `ok = true`, then one receive returns `(zero, false)`. -/
theorem receives_closed {α : Type} (cap : Nat) (b : List α) (z : α) :
    receives (b.length + 1) ⟨cap, b, true⟩ z =
      (b.map (fun x => (x, true)) ++ [(z, false)], ⟨cap, [], true⟩) := by
  induction b with
  | nil => rfl
  | cons x rest ih =>
      have h1 : receives ((x :: rest).length + 1) (⟨cap, x :: rest, true⟩ : ChanState α) z =
          ((x, true) :: (receives (rest.length + 1) ⟨cap, rest, true⟩ z).1,
            (receives (rest.length + 1) ⟨cap, rest, true⟩ z).2) := rfl
      rw [h1, ih]
      simp

/-! ## Claim C1 -/

/-- C1: for every BoundedChannel, a `send` on a channel that is closed at
the time of the call fails with `ChannelClosedError`; a `send` that is
blocked fails the same way once the channel closes; and the error is the
`channelClosedError` value of the `SendResult` return type — an explicit
result the caller inspects, not an exception — produced exactly when the
channel is closed. -/
theorem bounded_send_closed_error {α : Type} (s s' : ChanState α) (x : α) :
    (s.closed = true → boundedSend s x = .channelClosedError) ∧
    (boundedSend s x = .blocked → ChanStep s .close s' → boundedSend s' x = .channelClosedError) ∧
    (boundedSend s x = .channelClosedError ↔ s.closed = true) := by
  refine ⟨fun hc => by simp [boundedSend, hc], fun _ hclose => ?_, ?_⟩
  · cases hclose with
    | close hc => simp [boundedSend]
  · unfold boundedSend
    rcases hb : s.closed with _ | _
    · simp only [Bool.false_eq_true, if_false, iff_false]
      split <;> simp
    · simp

/-- Witness for C1 at concrete channels: a send on a closed capacity-0
channel fails with the error value; a send blocked on a full open channel
fails with the error value after the channel closes. -/
theorem bounded_send_closed_error_witness :
    boundedSend (⟨0, [], true⟩ : ChanState Nat) 5 = .channelClosedError ∧
    boundedSend (⟨0, [], true⟩ : ChanState Nat) 7 = .channelClosedError :=
  ⟨(bounded_send_closed_error ⟨0, [], true⟩ ⟨0, [], true⟩ 5).1 rfl,
   (bounded_send_closed_error ⟨0, [], false⟩ ⟨0, [], true⟩ 7).2.1 rfl
     (ChanStep.close ⟨0, [], false⟩ rfl)⟩

/-! ## Claim C2 -/

/-- C2: a comma-ok receive returns `ok = false` exactly when the channel
is closed and the buffer is empty; on a closed channel, draining delivers
every buffered item as `(item, true)` in order and then `(zero, false)`,
and a receive never blocks (`receiveNow ≠ none`). -/
theorem channel_close_receive_semantics {α : Type} (s : ChanState α) (z : α) :
    (∀ a b s', receiveNow s z = some (a, b, s') → (b = false ↔ (s.closed = true ∧ s.buffer = []))) ∧
    (s.closed = true →
      receives (s.buffer.length + 1) s z =
        (s.buffer.map (fun x => (x, true)) ++ [(z, false)], ⟨s.capacity, [], true⟩) ∧
      receiveNow s z ≠ none) := by
  obtain ⟨cap, buf, cl⟩ := s
  constructor
  · rcases buf with _ | ⟨y, rest⟩ <;> rcases cl with _ | _ <;> intro a b s' hr <;>
      simp_all [receiveNow]
  · intro hc
    simp only at hc
    subst hc
    exact ⟨receives_closed cap buf z, by rcases buf with _ | ⟨y, rest⟩ <;> simp [receiveNow]⟩

/-- Witness for C2 at a concrete closed channel holding `[1, 2]`:
draining yields `(1, true)`, `(2, true)`, then `(0, false)`. -/
theorem channel_close_receive_semantics_witness :
    (∀ a b s', receiveNow (⟨50, [1, 2], true⟩ : ChanState Nat) 0 = some (a, b, s') →
      (b = false ↔ ((⟨50, [1, 2], true⟩ : ChanState Nat).closed = true ∧
        (⟨50, [1, 2], true⟩ : ChanState Nat).buffer = []))) ∧
    receives 3 (⟨50, [1, 2], true⟩ : ChanState Nat) 0 =
      ([(1, true), (2, true), (0, false)], ⟨50, [], true⟩) ∧
    receiveNow (⟨50, [1, 2], true⟩ : ChanState Nat) 0 ≠ none :=
  ⟨(channel_close_receive_semantics ⟨50, [1, 2], true⟩ 0).1,
   ((channel_close_receive_semantics ⟨50, [1, 2], true⟩ 0).2 rfl).1,
   ((channel_close_receive_semantics ⟨50, [1, 2], true⟩ 0).2 rfl).2⟩

/-! ## Claim C6 -/

/-- C6: from `make(chan α, cap)`, every reachable channel state holds at
most `cap` buffered items; when exactly `cap` items are buffered no send
step is possible (the next send blocks); and after a receive removes an
item from the full open channel, a send step is possible again. -/
theorem channel_capacity_bound {α : Type} (cap : Nat) (tr : List (ChanLabel α))
    (s' : ChanState α) (h : ChanTrace (ChanState.make α cap) tr s') :
    s'.buffer.length ≤ cap ∧
    (s'.buffer.length = cap → ∀ x t, ¬ ChanStep s' (.send x) t) ∧
    (s'.buffer.length = cap → ∀ x t, ChanStep s' (.recv x) t → t.closed = false →
      ∀ y, ChanStep t (.send y) ⟨t.capacity, t.buffer ++ [y], t.closed⟩) := by
  obtain ⟨hcap, hlen⟩ := chanTrace_capacity_buffer h
  simp only [ChanState.make] at hcap hlen
  have hbound : s'.buffer.length ≤ cap := by simpa [hcap] using hlen (by simp)
  refine ⟨hbound, fun hfull x t hstep => ?_, fun hfull x t hstep hopen y => ?_⟩
  · cases hstep with
    | send hc hl => omega
  · cases hstep with
    | recv x rest hb =>
        refine ChanStep.send _ y hopen ?_
        have h1 : rest.length + 1 = cap := by
          rw [hb, List.length_cons] at hfull
          exact hfull
        show rest.length < s'.capacity
        omega

/-- Witness for C6 at a concrete capacity-1 channel after one send:
the bound holds, the full channel admits no send, and after a receive a
send is enabled again. -/
theorem channel_capacity_bound_witness :
    (⟨1, [5], false⟩ : ChanState Nat).buffer.length ≤ 1 ∧
    (¬ ChanStep (⟨1, [5], false⟩ : ChanState Nat) (.send 6) ⟨1, [5, 6], false⟩) ∧
    ChanStep (⟨1, [], false⟩ : ChanState Nat) (.send 7) ⟨1, [7], false⟩ := by
  have h := channel_capacity_bound 1 [ChanLabel.send 5] ⟨1, [5], false⟩
    (ChanTrace.cons (ChanStep.send (ChanState.make Nat 1) 5 rfl (by decide)) (ChanTrace.nil _))
  exact ⟨h.1, h.2.1 rfl 6 _, h.2.2 rfl 5 ⟨1, [], false⟩
    (ChanStep.recv _ 5 [] rfl) rfl 7⟩

/-! ## Claim C7 -/

/-- C7: single producer, single consumer — along every trace from a fresh
channel, the received values are exactly the sent values in order, up to
the still-buffered tail; once the buffer is drained the two sequences are
equal. -/
theorem channel_fifo {α : Type} (cap : Nat) (tr : List (ChanLabel α))
    (s' : ChanState α) (h : ChanTrace (ChanState.make α cap) tr s') :
    sentOf tr = recvOf tr ++ s'.buffer ∧
    (s'.buffer = [] → recvOf tr = sentOf tr) := by
  have hc := chanTrace_sent_recv h
  simp only [ChanState.make, List.nil_append] at hc
  exact ⟨hc, fun hb => by simp [hc, hb]⟩

/-- Witness for C7 at a concrete trace of two sends and two receives on a
capacity-50 channel (channels.go lines 240-254): receives come back in
send order. -/
theorem channel_fifo_witness :
    sentOf [ChanLabel.send 42, ChanLabel.send 27, ChanLabel.recv 42, ChanLabel.recv 27] =
      recvOf [ChanLabel.send 42, ChanLabel.send 27, ChanLabel.recv 42, ChanLabel.recv 27] ++
        (⟨50, [], false⟩ : ChanState Nat).buffer ∧
    recvOf [ChanLabel.send 42, ChanLabel.send 27, ChanLabel.recv 42, ChanLabel.recv 27] =
      sentOf [ChanLabel.send 42, ChanLabel.send 27, ChanLabel.recv 42, ChanLabel.recv 27] := by
  have h := channel_fifo 50
    [ChanLabel.send 42, ChanLabel.send 27, ChanLabel.recv 42, ChanLabel.recv 27]
    (⟨50, [], false⟩ : ChanState Nat)
    (ChanTrace.cons (ChanStep.send (ChanState.make Nat 50) 42 rfl (by decide))
      (ChanTrace.cons (ChanStep.send ⟨50, [42], false⟩ 27 rfl (by decide))
        (ChanTrace.cons (ChanStep.recv ⟨50, [42, 27], false⟩ 42 [27] rfl)
          (ChanTrace.cons (ChanStep.recv ⟨50, [27], false⟩ 27 [] rfl)
            (ChanTrace.nil _)))))
  exact ⟨h.1, h.2 rfl⟩

/-! ## Multiplexer lemmas -/

/-- No transition leaves `stopped`: a step from a stopped multiplexer
keeps it stopped, and such a step is never an emission (it can only be a
producer buffering a message). -/
theorem muxStep_stopped {m m' : MuxState} {l : MuxLabel} (h : MuxStep m l m')
    (hs : m.phase = .stopped) : m'.phase = .stopped ∧ ∀ e, l ≠ .emit e := by
  cases h with
  | start h1 => rw [h1] at hs; simp at hs
  | produce e c' hchan => exact ⟨hs, fun e => by simp⟩
  | emit e c' hr hchan => rw [hr] at hs; simp at hs
  | cancel hr => rw [hr] at hs; simp at hs

/-- Along any trace from a stopped multiplexer, nothing is emitted and
the multiplexer remains stopped. -/
theorem muxTrace_stopped {m m' : MuxState} {tr : List MuxLabel} (h : MuxTrace m tr m') :
    m.phase = .stopped → (∀ e, MuxLabel.emit e ∉ tr) ∧ m'.phase = .stopped := by
  induction h with
  | nil m => exact fun hs => ⟨fun e => by simp, hs⟩
  | cons hstep htr ih =>
      intro hs
      obtain ⟨h1, h2⟩ := muxStep_stopped hstep hs
      obtain ⟨h3, h4⟩ := ih h1
      refine ⟨fun e hmem => ?_, h4⟩
      rcases List.mem_cons.1 hmem with hh | hh
      · exact h2 e hh.symm
      · exact h3 e hh

/-- A trace over an appended label list splits at the seam. -/
theorem muxTrace_append {m m'' : MuxState} {xs ys : List MuxLabel}
    (h : MuxTrace m (xs ++ ys) m'') : ∃ mid, MuxTrace m xs mid ∧ MuxTrace mid ys m'' := by
  induction xs generalizing m with
  | nil => exact ⟨m, MuxTrace.nil m, by simpa using h⟩
  | cons l ls ih =>
      cases h with
      | cons hstep htr =>
          obtain ⟨mid, h1, h2⟩ := ih htr
          exact ⟨mid, MuxTrace.cons hstep h1, h2⟩

/-! ## Claim C3 -/

/-- C3: the cancellation signal moves the multiplexer to `stopped`; no
transition leaves `stopped` (and none of them emits); hence in any run,
after the cancellation no message emission occurs — even though producers
may still buffer messages concurrently with or after the signal, those
buffered messages are never emitted. -/
theorem multiplexer_stops_after_cancel :
    (∀ (m m' : MuxState), MuxStep m .cancel m' → m'.phase = .stopped) ∧
    (∀ (m m' : MuxState) (l : MuxLabel), MuxStep m l m' → m.phase = .stopped →
      m'.phase = .stopped ∧ ∀ e, l ≠ .emit e) ∧
    (∀ (m m' : MuxState) (tr1 tr2 : List MuxLabel),
      MuxTrace m (tr1 ++ MuxLabel.cancel :: tr2) m' → ∀ e, MuxLabel.emit e ∉ tr2) := by
  refine ⟨?_, ?_, ?_⟩
  · intro m m' h
    cases h with
    | cancel hr => rfl
  · intro m m' l h hs
    exact muxStep_stopped h hs
  · intro m m' tr1 tr2 h e
    obtain ⟨mid, h1, h2⟩ := muxTrace_append h
    cases h2 with
    | cons hstep htr =>
        cases hstep with
        | cancel hr => exact (muxTrace_stopped htr rfl).1 e

/-- Witness for C3 on the run of channels.go's main: start the logger,
buffer one entry, cancel, then a producer buffers another entry; the
later entry is never emitted. -/
theorem multiplexer_stops_after_cancel_witness :
    MuxLabel.emit entryStart ∉ [MuxLabel.produce entryFinish] :=
  (multiplexer_stops_after_cancel).2.2 MuxState.init
    ⟨.stopped, ⟨50, [entryStart, entryFinish], false⟩⟩
    [MuxLabel.start, MuxLabel.produce entryStart] [MuxLabel.produce entryFinish]
    (MuxTrace.cons (MuxStep.start MuxState.init rfl)
      (MuxTrace.cons
        (MuxStep.produce ⟨.running, ⟨50, [], false⟩⟩ entryStart ⟨50, [entryStart], false⟩
          (ChanStep.send ⟨50, [], false⟩ entryStart rfl (by decide)))
        (MuxTrace.cons (MuxStep.cancel ⟨.running, ⟨50, [entryStart], false⟩⟩ rfl)
          (MuxTrace.cons
            (MuxStep.produce ⟨.stopped, ⟨50, [entryStart], false⟩⟩ entryFinish
              ⟨50, [entryStart, entryFinish], false⟩
              (ChanStep.send ⟨50, [entryStart], false⟩ entryFinish rfl (by decide)))
            (MuxTrace.nil _)))))
    entryStart

/-! ## Claim C9 -/

/-- C9: `doneCh` is created with capacity 0; a capacity-0 channel admits
no buffered send at all (the only way a send completes is the rendezvous
with a simultaneous receive); and in every reachable state of the
shutdown handshake, once main's send has returned the logger has already
taken its cancellation branch and stopped — the signal is never pending
unobserved. -/
theorem cancellation_rendezvous :
    doneChCapacity = 0 ∧
    (∀ (s t : ChanState Unit) (x : Unit), s.capacity = 0 → ¬ ChanStep s (.send x) t) ∧
    (∀ s : SigState, SigReach SigState.init s → s.mainAt = .afterSignal →
      s.logger = .stopped) := by
  refine ⟨rfl, ?_, ?_⟩
  · intro s t x hcap hstep
    cases hstep with
    | send hc hl => omega
  · intro s hreach
    induction hreach with
    | refl => intro h; simp [SigState.init] at h
    | tail hpre hstep ih =>
        cases hstep with
        | rendezvous h1 h2 => intro _; rfl

/-- Witness for C9: no send step exists on the concrete capacity-0
channel, and the state reached by the concrete rendezvous step has the
logger stopped. -/
theorem cancellation_rendezvous_witness :
    (¬ ChanStep (⟨0, [], false⟩ : ChanState Unit) (.send ()) ⟨0, [()], false⟩) ∧
    (SigState.mk .stopped .afterSignal).logger = .stopped :=
  ⟨cancellation_rendezvous.2.1 ⟨0, [], false⟩ ⟨0, [()], false⟩ () rfl,
   cancellation_rendezvous.2.2 ⟨.stopped, .afterSignal⟩
     (Relation.ReflTransGen.single (SigStep.rendezvous SigState.init rfl rfl)) rfl⟩

/-! ## Claim C8 -/

/-- String append is associative. -/
theorem string_append_assoc (a b c : String) : a ++ b ++ c = a ++ (b ++ c) := by
  apply String.ext
  simp [String.data_append]

/-- The empty string is a right identity for append. -/
theorem string_append_empty (a : String) : a ++ "" = a := by
  apply String.ext
  simp [String.data_append]

/-- The source's layout `"2006-01-02T15:04:05"` renders exactly the
ISO-8601 form `YYYY-MM-DDTHH:MM:SS`. -/
theorem goTimeFormat_iso (t : DateTime) :
    goTimeFormat t "2006-01-02T15:04:05" = iso8601 t := by
  have h2 : goTimeFormat t "2006-01-02T15:04:05" =
      pad4 t.year ++ (String.singleton '-' ++ (pad2 t.month ++ (String.singleton '-' ++
        (pad2 t.day ++ (String.singleton 'T' ++ (pad2 t.hour ++ (String.singleton ':' ++
          (pad2 t.minute ++ (String.singleton ':' ++ (pad2 t.second ++ "")))))))))) := rfl
  have hs1 : String.singleton '-' = "-" := rfl
  have hs2 : String.singleton 'T' = "T" := rfl
  have hs3 : String.singleton ':' = ":" := rfl
  rw [h2, hs1, hs2, hs3]
  simp only [iso8601, string_append_assoc, string_append_empty]

/-- C8: the line the logger emits for a `LogEntry` is exactly the
function `<ISO-8601 timestamp> - [<SEVERITY>] <message>` of the entry's
three fields: the source's `Printf` line (modelled by `emittedLine`)
coincides with the spec's template (modelled by `specLine`) on every
entry. -/
theorem log_line_format (e : LogEntry) : emittedLine e = specLine e := by
  simp only [emittedLine, specLine, goTimeFormat_iso]

/-! ## Claim C10 -/

/-- C10: whenever `wait()` returns, the expected count is exactly zero
again, and the TaskGroup state equals that of a freshly created group —
so the same instance may run the next `add`/spawn/`wait` batch, as the
source does with its single package-level `wg` across every batch. -/
theorem taskgroup_reusable_after_wait (g g' : TaskGroup) (h : TGStep g .waitReturn g') :
    g'.expected = 0 ∧ g' = TaskGroup.fresh := by
  cases h with
  | waitReturn h0 =>
      refine ⟨h0, ?_⟩
      cases g with
      | mk e => simpa [TaskGroup.fresh] using h0

/-- Witness for C10: a `wait()` returning on the concrete group with
count zero leaves it equal to a fresh group. -/
theorem taskgroup_reusable_after_wait_witness :
    (⟨0⟩ : TaskGroup).expected = 0 ∧ (⟨0⟩ : TaskGroup) = TaskGroup.fresh :=
  taskgroup_reusable_after_wait ⟨0⟩ ⟨0⟩ (TGStep.waitReturn ⟨0⟩ rfl)

/-! ## TaskGroup batch lemmas -/

/-- The batch invariant holds initially. -/
theorem tginv_start (n : Nat) : TGInv (TGRun.start n) := by
  refine ⟨?_, ?_, ?_⟩
  · simp [signaledSet, TGRun.start]
  · intro i h
    simp [TGRun.start] at h
  · intro h
    simp [TGRun.start] at h

/-- The batch invariant is preserved by every step. -/
theorem tginv_step {n : Nat} {s s' : TGRun n} (h : TGRunStep s s') (hinv : TGInv s) :
    TGInv s' := by
  obtain ⟨hsum, hws, hwait⟩ := hinv
  cases h with
  | work i hw =>
      refine ⟨hsum, ?_, hwait⟩
      intro j hj
      by_cases hji : j = i
      · subst hji
        show Function.update s.worked j true j = true
        rw [Function.update_same]
      · show Function.update s.worked i true j = true
        rw [Function.update_noteq hji]
        exact hws j hj
  | signal i e hw hsig hexp =>
      have hset : (signaledSet (⟨e, s.worked, Function.update s.signaled i true,
          s.waitReturned⟩ : TGRun n)) = insert i (signaledSet s) := by
        ext j
        simp only [signaledSet, Finset.mem_filter, Finset.mem_univ, true_and,
          Finset.mem_insert]
        by_cases hji : j = i
        · subst hji
          rw [Function.update_same]
          simp
        · rw [Function.update_noteq hji]
          simp [hji]
      have hmem : i ∉ signaledSet s := by
        simp [signaledSet, hsig]
      refine ⟨?_, ?_, ?_⟩
      · show e + (signaledSet (⟨e, s.worked, Function.update s.signaled i true,
            s.waitReturned⟩ : TGRun n)).card = n
        rw [hset, Finset.card_insert_of_not_mem hmem]
        rw [hexp] at hsum
        omega
      · intro j hj
        by_cases hji : j = i
        · subst hji
          exact hw
        · show s.worked j = true
          apply hws
          have : Function.update s.signaled i true j = true := hj
          rwa [Function.update_noteq hji] at this
      · intro hwr
        have h0 := hwait hwr
        rw [hexp] at h0
        omega
  | waitReturn h0 hwr =>
      exact ⟨hsum, hws, fun _ => h0⟩

/-- The batch invariant holds in every reachable state. -/
theorem tginv_reach {n : Nat} {s : TGRun n} (h : TGReach (TGRun.start n) s) : TGInv s := by
  induction h with
  | refl => exact tginv_start n
  | tail hpre hstep ih => exact tginv_step hstep ih

/-! ## Claim C4 -/

/-- C4: the `wait()` transition fires only when the expected count is
zero; and in every reachable batch state in which `wait()` has returned,
every spawned task has performed its work and its `done()` — the tasks'
work happens before the code following `wait()` in every scheduling. -/
theorem taskgroup_wait_synchronization (n : Nat) :
    (∀ s s' : TGRun n, TGRunStep s s' → s.waitReturned = false → s'.waitReturned = true →
      s.expected = 0) ∧
    (∀ s : TGRun n, TGReach (TGRun.start n) s → s.waitReturned = true →
      s.expected = 0 ∧ ∀ i, s.worked i = true ∧ s.signaled i = true) := by
  constructor
  · intro s s' hstep hf ht
    cases hstep with
    | work i hw => rw [show (⟨s.expected, Function.update s.worked i true, s.signaled,
        s.waitReturned⟩ : TGRun n).waitReturned = s.waitReturned from rfl, hf] at ht
                   cases ht
    | signal i e hw hsig hexp => rw [show (⟨e, s.worked, Function.update s.signaled i true,
        s.waitReturned⟩ : TGRun n).waitReturned = s.waitReturned from rfl, hf] at ht
                                 cases ht
    | waitReturn h0 hwr => exact h0
  · intro s hreach hwr
    obtain ⟨hsum, hws, hwait⟩ := tginv_reach hreach
    have h0 := hwait hwr
    have hcard : (signaledSet s).card = n := by omega
    have huniv : signaledSet s = Finset.univ := by
      apply Finset.eq_univ_of_card
      rw [Fintype.card_fin]
      exact hcard
    refine ⟨h0, fun i => ?_⟩
    have hi : i ∈ signaledSet s := huniv ▸ Finset.mem_univ i
    have hsig : s.signaled i = true := by
      simpa [signaledSet] using hi
    exact ⟨hws i hsig, hsig⟩

/-- Witness for C4 at a concrete batch of one task: work, signal, wait
return; afterwards the count is zero and the task's work and `done()`
have executed. -/
theorem taskgroup_wait_synchronization_witness :
    (⟨0, Function.update (fun _ => false) 0 true, Function.update (fun _ => false) 0 true,
      true⟩ : TGRun 1).expected = 0 ∧
    (⟨0, Function.update (fun _ => false) 0 true, Function.update (fun _ => false) 0 true,
      true⟩ : TGRun 1).worked 0 = true ∧
    (⟨0, Function.update (fun _ => false) 0 true, Function.update (fun _ => false) 0 true,
      true⟩ : TGRun 1).signaled 0 = true := by
  have h := (taskgroup_wait_synchronization 1).2
    ⟨0, Function.update (fun _ => false) 0 true, Function.update (fun _ => false) 0 true, true⟩
    (Relation.ReflTransGen.head (TGRunStep.work (TGRun.start 1) 0 rfl)
      (Relation.ReflTransGen.head
        (TGRunStep.signal ⟨1, Function.update (fun _ => false) 0 true, fun _ => false, false⟩
          0 0 (Function.update_same 0 true (fun _ => false)) rfl rfl)
        (Relation.ReflTransGen.single
          (TGRunStep.waitReturn ⟨0, Function.update (fun _ => false) 0 true,
            Function.update (fun _ => false) 0 true, false⟩ rfl rfl))))
    rfl
  exact ⟨h.1, (h.2 0).1, (h.2 0).2⟩

/-! ## Shared-counter lemmas -/

/-- Updating one task's program counter leaves `doneSet` unchanged when
membership is unaffected. -/
theorem doneSet_update {n : Nat} (s : IncState n) (i : Fin n) (p : IncPC) (c : Nat)
    (lk : Option (Fin n))
    (hiff : (p = IncPC.wrote ∨ p = IncPC.finished) ↔
      (s.pc i = IncPC.wrote ∨ s.pc i = IncPC.finished)) :
    doneSet (⟨c, lk, Function.update s.pc i p⟩ : IncState n) = doneSet s := by
  ext j
  simp only [doneSet, Finset.mem_filter, Finset.mem_univ, true_and]
  by_cases hji : j = i
  · subst hji
    rw [Function.update_same]
    exact hiff
  · rw [Function.update_noteq hji]

/-- Moving one task to `wrote` inserts it into `doneSet`. -/
theorem doneSet_update_insert {n : Nat} (s : IncState n) (i : Fin n) (p : IncPC) (c : Nat)
    (lk : Option (Fin n)) (hnew : p = IncPC.wrote ∨ p = IncPC.finished) :
    doneSet (⟨c, lk, Function.update s.pc i p⟩ : IncState n) = insert i (doneSet s) := by
  ext j
  simp only [doneSet, Finset.mem_filter, Finset.mem_univ, true_and, Finset.mem_insert]
  by_cases hji : j = i
  · subst hji
    rw [Function.update_same]
    simp [hnew]
  · rw [Function.update_noteq hji]
    simp [hji]

/-- The counter invariant holds initially. -/
theorem incinv_start (n : Nat) : IncInv (IncState.start n) := by
  refine ⟨?_, ?_, ?_⟩
  · simp [doneSet, IncState.start]
  · intro i v h
    simp [IncState.start] at h
  · intro i h
    rcases h with h | ⟨v, h⟩ | h <;> simp [IncState.start] at h

/-- The counter invariant is preserved by every step. -/
theorem incinv_step {n : Nat} {s s' : IncState n} (h : IncStep s s') (hinv : IncInv s) :
    IncInv s' := by
  obtain ⟨hcnt, hread, hguard⟩ := hinv
  cases h with
  | acquire i hlock hpc =>
      have hnoguard : ∀ j : Fin n, ¬ holdsGuard (s.pc j) := by
        intro j hg
        have h1 := hguard j hg
        rw [hlock] at h1
        cases h1
      refine ⟨?_, ?_, ?_⟩
      · show s.counter =
          (doneSet (⟨s.counter, some i, Function.update s.pc i IncPC.locked⟩ : IncState n)).card
        rw [doneSet_update s i IncPC.locked s.counter (some i) (by simp [hpc])]
        exact hcnt
      · intro j v hj
        have hj' : Function.update s.pc i IncPC.locked j = IncPC.readv v := hj
        show v = s.counter
        by_cases hji : j = i
        · subst hji
          rw [Function.update_same] at hj'
          cases hj'
        · rw [Function.update_noteq hji] at hj'
          exact ((hnoguard j) (Or.inr (Or.inl ⟨v, hj'⟩))).elim
      · intro j hg
        have hg' : holdsGuard (Function.update s.pc i IncPC.locked j) := hg
        show some i = some j
        by_cases hji : j = i
        · subst hji
          rfl
        · rw [Function.update_noteq hji] at hg'
          exact ((hnoguard j) hg').elim
  | readStep i hlock hpc =>
      refine ⟨?_, ?_, ?_⟩
      · show s.counter = (doneSet (⟨s.counter, s.lock,
            Function.update s.pc i (IncPC.readv s.counter)⟩ : IncState n)).card
        rw [doneSet_update s i (IncPC.readv s.counter) s.counter s.lock (by simp [hpc])]
        exact hcnt
      · intro j v hj
        have hj' : Function.update s.pc i (IncPC.readv s.counter) j = IncPC.readv v := hj
        show v = s.counter
        by_cases hji : j = i
        · subst hji
          rw [Function.update_same] at hj'
          injection hj' with h2
          exact h2.symm
        · rw [Function.update_noteq hji] at hj'
          have h1 := hguard j (Or.inr (Or.inl ⟨v, hj'⟩))
          have h2 := hlock.symm.trans h1
          injection h2 with h3
          exact (hji h3.symm).elim
      · intro j hg
        have hg' : holdsGuard (Function.update s.pc i (IncPC.readv s.counter) j) := hg
        show s.lock = some j
        by_cases hji : j = i
        · subst hji
          exact hlock
        · rw [Function.update_noteq hji] at hg'
          exact hguard j hg'
  | writeStep i v hlock hpc =>
      have hv : v = s.counter := hread i v hpc
      have hnotmem : i ∉ doneSet s := by
        simp [doneSet, hpc]
      refine ⟨?_, ?_, ?_⟩
      · show v + 1 =
          (doneSet (⟨v + 1, s.lock, Function.update s.pc i IncPC.wrote⟩ : IncState n)).card
        rw [doneSet_update_insert s i IncPC.wrote (v + 1) s.lock (Or.inl rfl),
          Finset.card_insert_of_not_mem hnotmem]
        omega
      · intro j w hj
        have hj' : Function.update s.pc i IncPC.wrote j = IncPC.readv w := hj
        show w = v + 1
        by_cases hji : j = i
        · subst hji
          rw [Function.update_same] at hj'
          cases hj'
        · rw [Function.update_noteq hji] at hj'
          have h1 := hguard j (Or.inr (Or.inl ⟨w, hj'⟩))
          have h2 := hlock.symm.trans h1
          injection h2 with h3
          exact (hji h3.symm).elim
      · intro j hg
        have hg' : holdsGuard (Function.update s.pc i IncPC.wrote j) := hg
        show s.lock = some j
        by_cases hji : j = i
        · subst hji
          exact hlock
        · rw [Function.update_noteq hji] at hg'
          exact hguard j hg'
  | release i hlock hpc =>
      refine ⟨?_, ?_, ?_⟩
      · show s.counter =
          (doneSet (⟨s.counter, none, Function.update s.pc i IncPC.finished⟩ : IncState n)).card
        rw [doneSet_update s i IncPC.finished s.counter none (by simp [hpc])]
        exact hcnt
      · intro j w hj
        have hj' : Function.update s.pc i IncPC.finished j = IncPC.readv w := hj
        show w = s.counter
        by_cases hji : j = i
        · subst hji
          rw [Function.update_same] at hj'
          cases hj'
        · rw [Function.update_noteq hji] at hj'
          have h1 := hguard j (Or.inr (Or.inl ⟨w, hj'⟩))
          have h2 := hlock.symm.trans h1
          injection h2 with h3
          exact (hji h3.symm).elim
      · intro j hg
        have hg' : holdsGuard (Function.update s.pc i IncPC.finished j) := hg
        show (none : Option (Fin n)) = some j
        by_cases hji : j = i
        · subst hji
          rw [Function.update_same] at hg'
          rcases hg' with h | ⟨w, h⟩ | h <;> cases h
        · rw [Function.update_noteq hji] at hg'
          have h1 := hguard j hg'
          have h2 := hlock.symm.trans h1
          injection h2 with h3
          exact (hji h3.symm).elim

/-- The counter invariant holds in every reachable state. -/
theorem incinv_reach {n : Nat} {s : IncState n} (h : IncReach (IncState.start n) s) :
    IncInv s := by
  induction h with
  | refl => exact incinv_start n
  | tail hpre hstep ih => exact incinv_step hstep ih

/-! ## Claim C5 -/

/-- C5: for every `n` and every interleaving of `n` guarded increments
starting from counter 0 — each increment acquiring the mutex, reading,
writing the read value plus one, and releasing — once every task has
finished, `read()` returns exactly `n`. -/
theorem shared_counter_exact_count (n : Nat) (s : IncState n)
    (h : IncReach (IncState.start n) s) (hdone : ∀ i, s.pc i = IncPC.finished) :
    s.read = n := by
  obtain ⟨hcnt, h2, h3⟩ := incinv_reach h
  have hset : doneSet s = Finset.univ := by
    apply Finset.eq_univ_of_forall
    intro i
    simp [doneSet, hdone i]
  rw [IncState.read, hcnt, hset, Finset.card_univ, Fintype.card_fin]

/-- Witness for C5 with one task: the four-step schedule acquire, read,
write, release ends with the counter at 1. -/
theorem shared_counter_exact_count_witness :
    IncState.read (⟨1, none,
      Function.update (Function.update (Function.update (Function.update
        (fun _ => IncPC.idle) 0 IncPC.locked) 0 (IncPC.readv 0)) 0 IncPC.wrote)
        0 IncPC.finished⟩ : IncState 1) = 1 := by
  have hchain : IncReach (IncState.start 1) ⟨1, none,
      Function.update (Function.update (Function.update (Function.update
        (fun _ => IncPC.idle) 0 IncPC.locked) 0 (IncPC.readv 0)) 0 IncPC.wrote)
        0 IncPC.finished⟩ :=
    Relation.ReflTransGen.head (IncStep.acquire (IncState.start 1) 0 rfl rfl)
      (Relation.ReflTransGen.head
        (IncStep.readStep ⟨0, some 0, Function.update (fun _ => IncPC.idle) 0 IncPC.locked⟩ 0
          rfl (Function.update_same 0 IncPC.locked (fun _ => IncPC.idle)))
        (Relation.ReflTransGen.head
          (IncStep.writeStep ⟨0, some 0, Function.update (Function.update
              (fun _ => IncPC.idle) 0 IncPC.locked) 0 (IncPC.readv 0)⟩ 0 0
            rfl (by simp [Function.update]))
          (Relation.ReflTransGen.single
            (IncStep.release ⟨1, some 0, Function.update (Function.update (Function.update
                (fun _ => IncPC.idle) 0 IncPC.locked) 0 (IncPC.readv 0)) 0 IncPC.wrote⟩ 0
              rfl (by simp [Function.update])))))
  refine shared_counter_exact_count 1 _ hchain ?_
  intro i
  fin_cases i
  simp [Function.update]

end GoLearn
